import Mathlib

/-!
Verification of the Pegasus encoder stack (`src/pegasus/encoder.rs`).

The encoder composes external capabilities (embedding lookup, sinusoidal
positional embeddings, multi-head self-attention, dropout, layer
normalization, linear projections, mask expansion).  Those capabilities are
numeric kernels outside this core; we embed them as uninterpreted
constructors of a symbolic tensor algebra, so that every theorem below is a
statement about the exact dataflow wiring of the Rust code (which residual
is added, which mask reaches which attention call, what is pushed into which
collector, in which order), independent of the numeric semantics of the
kernels.  Dropout and attention receive the training flag and an explicit
random source, following the design notes of the specification, which
prescribe modelling dropout as a pure function of an explicit mode parameter
and an explicit random source.
-/

namespace Pegasus

/-- Hierarchical parameter path (the `nn::Path` naming scope): a list of
name segments. -/
abbrev NnPath := List String

/-- Rust `p / "name"`: extend a parameter path by a string segment. -/
def NnPath.sub (p : NnPath) (s : String) : NnPath := p ++ [s]

/-- Rust `p / index`: extend a parameter path by an integer segment. -/
def NnPath.subIdx (p : NnPath) (i : Int) : NnPath := p ++ [toString i]

/-- Floating-point scalars from the configuration (dropout probabilities).
No claim depends on their numeric semantics, so they are carried as
uninterpreted identifiers. -/
abbrev F64 := Nat

/-- The closed enumeration of supported activation functions
(`crate::Activation`). -/
inductive Activation where
  | gelu
  | relu
  | swish
  | gelu_new
  | tanh
  | mish
deriving DecidableEq, Repr

/-- A `TensorFunction` (boxed tensor-to-tensor function); in this symbolic
embedding it is determined by the activation variant it was built from. -/
structure TensorFunction where
  variant : Activation
deriving DecidableEq, Repr

/-- Rust `Activation::get_function`. -/
def Activation.get_function (a : Activation) : TensorFunction := ⟨a⟩

/-- The embedding-scale factor computed in `PegasusEncoder::new`.  In the
Rust source it is an `f64`, either `(config.d_model as f64).sqrt()` or
`1.0`; the two possible values are kept symbolic. -/
inductive ScaleFactor where
  | sqrtD (d_model : Int)
  | one
deriving DecidableEq, Repr

/-- Rust `nn::LayerNormConfig`; the epsilon (1e-5 in the source) is kept as
a rational. -/
structure LayerNormConfig where
  eps : ℚ
deriving DecidableEq, Repr

/-- Rust `nn::LayerNorm`: learned scale/bias addressed by a parameter path,
over the given normalized shape. -/
structure LayerNorm where
  path : NnPath
  normalized_shape : List Int
  config : LayerNormConfig
deriving DecidableEq, Repr

/-- Rust `nn::layer_norm`. -/
def nn_layer_norm (p : NnPath) (shape : List Int) (cfg : LayerNormConfig) : LayerNorm :=
  ⟨p, shape, cfg⟩

/-- Rust `nn::Linear`: learned weight/bias addressed by a parameter path,
with its input and output dimensions. -/
structure Linear where
  path : NnPath
  in_dim : Int
  out_dim : Int
deriving DecidableEq, Repr

/-- Rust `nn::linear`. -/
def nn_linear (p : NnPath) (in_dim out_dim : Int) : Linear := ⟨p, in_dim, out_dim⟩

/-- Rust `Dropout` (a probability value, no persistent state). -/
structure Dropout where
  p : F64
deriving DecidableEq, Repr

/-- Rust `Dropout::new`. -/
def Dropout.new (p : F64) : Dropout := ⟨p⟩

/-- Symbolic tensors: the inputs of a forward call together with one
uninterpreted constructor per external numeric capability the encoder
invokes.  `dropoutMask` records an application of training-mode dropout
(with the random source it consumed); `attnContext` and `attnWeights` are
the two results of the self-attention capability, each recording the
optional additive attention-bias tensor that was passed to the attention
call; `expandedMask` is the result of `_expand_mask`. -/
inductive Tensor where
  | input (id : Nat)
  | embedLookup (embeddings : Nat) (ids : Tensor)
  | smul (s : ScaleFactor) (x : Tensor)
  | posEmbed (path : NnPath) (ids : Tensor) (offset : Int)
  | add (x y : Tensor)
  | dropoutMask (p : F64) (rng : Nat) (x : Tensor)
  | layerNormApp (ln : LayerNorm) (x : Tensor)
  | linearApp (l : Linear) (x : Tensor)
  | actApp (f : TensorFunction) (x : Tensor)
  | attnContext (path : NnPath) (x : Tensor) (mask : Option Tensor) (noise : Option Nat)
  | attnWeights (path : NnPath) (x : Tensor) (mask : Option Tensor)
  | expandedMask (m : Tensor)

/-- Modelled from the spec: `Dropout` application (`src/common/dropout.rs`
is not among the sources).  Per the data model, "during training mode it
stochastically zeroes elements and rescales survivors; during evaluation
mode it is the identity function", and the design notes prescribe modelling
it as a pure function of an explicit mode parameter and an explicit random
source. -/
def Dropout.apply_t (d : Dropout) (x : Tensor) (train : Bool) (rng : Nat) : Tensor :=
  if train then Tensor.dropoutMask d.p rng x else x

/-- Modelled from the spec: `_expand_mask` from the BART module
(`src/bart` is not among the sources).  It expands a 0-1 attention mask to
an additive bias tensor suitable for the attention score computation. -/
def _expand_mask (mask : Tensor) (_tgt_len : Option Int) : Tensor :=
  Tensor.expandedMask mask

/-- Modelled from the spec: `PegasusAttention`
(`src/pegasus/attention.rs` is not among the sources).  The configuration
recorded here is what `PegasusAttention::new` receives. -/
structure PegasusAttention where
  path : NnPath
  d_model : Int
  heads : Int
  dropout : F64
  is_decoder : Bool
  encoder_decoder : Bool
  output_attentions : Bool

/-- Modelled from the spec: `PegasusAttention::new`. -/
def PegasusAttention.new (p : NnPath) (d_model heads : Int) (attn_dropout : F64)
    (is_decoder encoder_decoder output_attentions : Bool) : PegasusAttention :=
  ⟨p, d_model, heads, attn_dropout, is_decoder, encoder_decoder, output_attentions⟩

/-- Modelled from the spec: `PegasusAttention::forward_t`.  The external
contract is (hidden states, optional cross-attention source, attention
bias, optional cached key/value, train flag) to (context tensor, optional
attention weights, optional updated cache); the weights tensor is present
exactly when attention-weight output was requested at construction, and the
train flag gates the internal dropout's consumption of the random source. -/
def PegasusAttention.forward_t (sa : PegasusAttention) (hidden_states : Tensor)
    (_kv : Option Tensor) (attention_mask : Option Tensor) (_layer_state : Option Unit)
    (train : Bool) (rng : Nat) : Tensor × Option Tensor × Option Unit :=
  (Tensor.attnContext sa.path hidden_states attention_mask
      (if train then some rng else none),
   if sa.output_attentions then
     some (Tensor.attnWeights sa.path hidden_states attention_mask)
   else none,
   none)

/-- Modelled from the spec: `SinusoidalPositionalEmbedding`
(`src/pegasus/embeddings.rs` is not among the sources): a deterministic,
non-learned positional encoding addressed by a parameter path. -/
structure SinusoidalPositionalEmbedding where
  path : NnPath
  max_position_embeddings : Int
  d_model : Int

/-- Modelled from the spec: `SinusoidalPositionalEmbedding::new`. -/
def SinusoidalPositionalEmbedding.new (p : NnPath) (max_position_embeddings d_model : Int) :
    SinusoidalPositionalEmbedding :=
  ⟨p, max_position_embeddings, d_model⟩

/-- Modelled from the spec: `SinusoidalPositionalEmbedding::forward`, a pure
function of the input ids and the start offset. -/
def SinusoidalPositionalEmbedding.forward (e : SinusoidalPositionalEmbedding)
    (input_ids : Tensor) (offset : Int) : Tensor :=
  Tensor.posEmbed e.path input_ids offset

/-- The fields of `PegasusConfig` consumed by the encoder. -/
structure PegasusConfig where
  d_model : Int
  encoder_attention_heads : Int
  encoder_ffn_dim : Int
  encoder_layers : Int
  max_position_embeddings : Int
  dropout : F64
  attention_dropout : F64
  activation_dropout : F64
  activation_function : Option Activation
  output_attentions : Option Bool
  output_hidden_states : Option Bool
  scale_embedding : Option Bool

/-- Rust `EncoderLayer` (struct, `encoder.rs` lines 23-32). -/
structure EncoderLayer where
  self_attention : PegasusAttention
  self_attention_layer_norm : LayerNorm
  dropout : Dropout
  activation_dropout : Dropout
  activation : TensorFunction
  fc1 : Linear
  fc2 : Linear
  final_layer_norm : LayerNorm

/-- Rust `EncoderLayer::new` (`encoder.rs` lines 35-96). -/
def EncoderLayer.new (p : NnPath) (config : PegasusConfig) : EncoderLayer :=
  let layer_norm_config : LayerNormConfig := ⟨1 / 100000⟩
  let output_attention := config.output_attentions.getD false
  let self_attention := PegasusAttention.new (NnPath.sub p "self_attn") config.d_model
    config.encoder_attention_heads config.attention_dropout false false output_attention
  let self_attention_layer_norm :=
    nn_layer_norm (NnPath.sub p "self_attn_layer_norm") [config.d_model] layer_norm_config
  let dropout := Dropout.new config.dropout
  let activation_dropout := Dropout.new config.activation_dropout
  let activation_function := match config.activation_function with
    | some act_function => act_function
    | none => Activation.gelu
  let activation := activation_function.get_function
  let fc1 := nn_linear (NnPath.sub p "fc1") config.d_model config.encoder_ffn_dim
  let fc2 := nn_linear (NnPath.sub p "fc2") config.encoder_ffn_dim config.d_model
  let final_layer_norm :=
    nn_layer_norm (NnPath.sub p "final_layer_norm") [config.d_model] layer_norm_config
  { self_attention := self_attention,
    self_attention_layer_norm := self_attention_layer_norm,
    dropout := dropout,
    activation_dropout := activation_dropout,
    activation := activation,
    fc1 := fc1,
    fc2 := fc2,
    final_layer_norm := final_layer_norm }

/-- Rust `EncoderLayer::forward_t` (`encoder.rs` lines 98-119).  The ambient
random source of the tensor backend is passed explicitly as `rng`;
`.copy()` is the identity under value semantics. -/
def EncoderLayer.forward_t (self : EncoderLayer) (x : Tensor)
    (encoder_attention_mask : Option Tensor) (train : Bool) (rng : Nat) :
    Tensor × Option Tensor :=
  let output := Tensor.layerNormApp self.self_attention_layer_norm x
  let r := self.self_attention.forward_t output none encoder_attention_mask none train rng
  let output := r.1
  let attention_weights := r.2.1
  let output := Tensor.add (Dropout.apply_t self.dropout output train rng) x
  let residual := output
  let output := Tensor.layerNormApp self.final_layer_norm output
  let output := Tensor.actApp self.activation (Tensor.linearApp self.fc1 output)
  let output := Dropout.apply_t self.dropout
    (Tensor.linearApp self.fc2 (Dropout.apply_t self.activation_dropout output train rng))
    train rng
  (Tensor.add output residual, attention_weights)

/-- `BartEncoderOutput` (the container `PegasusEncoderOutput` aliases). -/
structure BartEncoderOutput where
  hidden_state : Tensor
  all_hidden_states : Option (List Tensor)
  all_attentions : Option (List Tensor)

/-- Rust `pub type PegasusEncoderOutput = BartEncoderOutput`. -/
abbrev PegasusEncoderOutput := BartEncoderOutput

/-- Rust `PegasusEncoder` (struct, `encoder.rs` lines 122-130). -/
structure PegasusEncoder where
  dropout : Dropout
  layer_norm : LayerNorm
  layers : List EncoderLayer
  embed_positions : SinusoidalPositionalEmbedding
  output_attentions : Bool
  output_hidden_states : Bool
  scale_embedding : ScaleFactor

/-- Rust `PegasusEncoder::new` (`encoder.rs` lines 132-173). -/
def PegasusEncoder.new (p : NnPath) (config : PegasusConfig) : PegasusEncoder :=
  let output_attentions := config.output_attentions.getD false
  let output_hidden_states := config.output_hidden_states.getD false
  let scale_embedding := match config.scale_embedding with
    | some value => if value then ScaleFactor.sqrtD config.d_model else ScaleFactor.one
    | none => ScaleFactor.one
  let dropout := Dropout.new config.dropout
  let layer_norm_config : LayerNormConfig := ⟨1 / 100000⟩
  let layer_norm2 := nn_layer_norm (NnPath.sub p "layer_norm") [config.d_model] layer_norm_config
  let embed_positions := SinusoidalPositionalEmbedding.new
    (NnPath.sub p "embed_positions") config.max_position_embeddings config.d_model
  let p_layers := NnPath.sub p "layers"
  let layers := (List.range config.encoder_layers.toNat).map
    (fun layer_index => EncoderLayer.new (NnPath.subIdx p_layers (Int.ofNat layer_index)) config)
  { dropout := dropout,
    layer_norm := layer_norm2,
    layers := layers,
    embed_positions := embed_positions,
    output_attentions := output_attentions,
    output_hidden_states := output_hidden_states,
    scale_embedding := scale_embedding }

/-- The layer loop of `PegasusEncoder::forward_t` (`encoder.rs` lines
205-216) as a recursion over the layer list, carrying the mutable state
(`hidden_state`, `all_hidden_states`, `all_attentions`).  A panicking
`unwrap` on an absent attention-weight tensor is modelled as `none`. -/
def PegasusEncoder.runLayers (attention_mask : Option Tensor) (train : Bool) (rng : Nat) :
    List EncoderLayer → Tensor × Option (List Tensor) × Option (List Tensor) →
    Option (Tensor × Option (List Tensor) × Option (List Tensor))
  | [], st => some st
  | layer :: rest, (hidden_state, all_hidden_states, all_attentions) =>
    let all_hidden_states := all_hidden_states.map (fun hs => hs ++ [hidden_state])
    let temp := layer.forward_t hidden_state attention_mask train rng
    match all_attentions with
    | some attentions =>
      match temp.2 with
      | some w =>
        PegasusEncoder.runLayers attention_mask train rng rest
          (temp.1, all_hidden_states, some (attentions ++ [w]))
      | none => none
    | none =>
      PegasusEncoder.runLayers attention_mask train rng rest
        (temp.1, all_hidden_states, none)

/-- Rust `PegasusEncoder::forward_t` (`encoder.rs` lines 175-227).  Returns
`none` exactly when the loop's `unwrap` would panic. -/
def PegasusEncoder.forward_t (self : PegasusEncoder) (input_ids : Tensor)
    (attention_mask : Option Tensor) (embeddings : Nat) (train : Bool) (rng : Nat) :
    Option PegasusEncoderOutput :=
  let attention_mask := match attention_mask with
    | some mask => some (_expand_mask mask none)
    | none => none
  let x := Tensor.smul self.scale_embedding (Tensor.embedLookup embeddings input_ids)
  let x := Tensor.add x (self.embed_positions.forward input_ids 0)
  let x := Dropout.apply_t self.dropout x train rng
  let all_hidden_states : Option (List Tensor) :=
    if self.output_hidden_states then some [] else none
  let all_attentions : Option (List Tensor) :=
    if self.output_attentions then some [] else none
  match PegasusEncoder.runLayers attention_mask train rng self.layers
      (x, all_hidden_states, all_attentions) with
  | none => none
  | some (hidden_state, all_hidden_states, all_attentions) =>
    let all_hidden_states := all_hidden_states.map (fun hs => hs ++ [hidden_state])
    some { hidden_state := Tensor.layerNormApp self.layer_norm hidden_state,
           all_hidden_states := all_hidden_states,
           all_attentions := all_attentions }

/-!
Specification-side definitions.  The following definitions are written from
the specification's words (not from the source) and are compared with the
transcribed code in the theorems below.
-/

/-- The "post-embedding, post-dropout, pre-stack" tensor of the stack
forward contract, steps 2-4, written from the spec's words: look up the
embeddings, scale them by the configured embedding-scale factor, add the
positional encoding for offset 0, then apply dropout (train-mode only). -/
def preStackTensor (enc : PegasusEncoder) (input_ids : Tensor) (embeddings : Nat)
    (train : Bool) (rng : Nat) : Tensor :=
  Dropout.apply_t enc.dropout
    (Tensor.add (Tensor.smul enc.scale_embedding (Tensor.embedLookup embeddings input_ids))
      (enc.embed_positions.forward input_ids 0))
    train rng

/-- Sequential application of the layers, written from the spec's words
("run the layer", layers applied strictly in order): the hidden state after
the whole stack, before the final normalization. -/
def applyLayers (mask : Option Tensor) (train : Bool) (rng : Nat) :
    List EncoderLayer → Tensor → Tensor
  | [], h => h
  | layer :: rest, h =>
    applyLayers mask train rng rest (layer.forward_t h mask train rng).1

/-- The hidden states captured per the spec's collection contract: for each
layer the current hidden state is captured before the layer transforms it,
and one final capture is made after the last layer.  For layers `L1, ...,
Ln` and initial state `h0` this is `[h0, h1, ..., hn]` with
`h(i) = Li(h(i-1))`. -/
def hiddenChain (mask : Option Tensor) (train : Bool) (rng : Nat) :
    List EncoderLayer → Tensor → List Tensor
  | [], h => [h]
  | layer :: rest, h =>
    h :: hiddenChain mask train rng rest (layer.forward_t h mask train rng).1

/-- The hidden states captured before each layer only (the collector's
content just before the final post-stack capture). -/
def preHidden (mask : Option Tensor) (train : Bool) (rng : Nat) :
    List EncoderLayer → Tensor → List Tensor
  | [], _ => []
  | layer :: rest, h =>
    h :: preHidden mask train rng rest (layer.forward_t h mask train rng).1

/-- The attention-weight outputs per layer, in layer order: entry `i` is
what layer `i` returns as its optional attention-weight tensor when run on
the hidden state it receives in the sequential stack. -/
def attnChain (mask : Option Tensor) (train : Bool) (rng : Nat) :
    List EncoderLayer → Tensor → List (Option Tensor)
  | [], _ => []
  | layer :: rest, h =>
    (layer.forward_t h mask train rng).2 ::
      attnChain mask train rng rest (layer.forward_t h mask train rng).1

/-- The attention sub-block of the layer forward contract, steps 1-3,
written from the spec's words: normalize the input, apply self-attention to
the normalized tensor passing through the optional attention mask, apply
dropout to the attention output (train-mode only), and add the original,
pre-normalization input as the residual.  Returns that sum together with
the optional attention-weight tensor. -/
def specAttnSubBlock (l : EncoderLayer) (x : Tensor) (mask : Option Tensor)
    (train : Bool) (rng : Nat) : Tensor × Option Tensor :=
  let normalized := Tensor.layerNormApp l.self_attention_layer_norm x
  let r := l.self_attention.forward_t normalized none mask none train rng
  (Tensor.add (Dropout.apply_t l.dropout r.1 train rng) x, r.2.1)

/-- The feed-forward sub-block of the layer forward contract, steps 4-6,
written from the spec's words: take the post-attention tensor as the
residual base, normalize it, apply the first linear projection, apply the
configured activation, apply dropout, apply the second linear projection,
apply dropout again, and add the residual base. -/
def specFfnSubBlock (l : EncoderLayer) (y : Tensor) (train : Bool) (rng : Nat) : Tensor :=
  let residual := y
  let z := Tensor.layerNormApp l.final_layer_norm y
  let z := Tensor.linearApp l.fc1 z
  let z := Tensor.actApp l.activation z
  let z := Dropout.apply_t l.activation_dropout z train rng
  let z := Tensor.linearApp l.fc2 z
  let z := Dropout.apply_t l.dropout z train rng
  Tensor.add z residual

/-- All attention-bias arguments occurring in a symbolic tensor: one entry
per self-attention invocation recorded in the term, each entry being the
optional additive-bias tensor that invocation received. -/
def Tensor.attnMasks : Tensor → List (Option Tensor)
  | .input _ => []
  | .embedLookup _ ids => ids.attnMasks
  | .smul _ x => x.attnMasks
  | .posEmbed _ ids _ => ids.attnMasks
  | .add x y => x.attnMasks ++ y.attnMasks
  | .dropoutMask _ _ x => x.attnMasks
  | .layerNormApp _ x => x.attnMasks
  | .linearApp _ x => x.attnMasks
  | .actApp _ x => x.attnMasks
  | .attnContext _ x mask _ => mask :: x.attnMasks
  | .attnWeights _ x mask => mask :: x.attnMasks
  | .expandedMask m => m.attnMasks

/-- Every self-attention invocation recorded in `t` received exactly the
attention bias `m`. -/
def OnlyMask (m : Option Tensor) (t : Tensor) : Prop :=
  ∀ b ∈ t.attnMasks, b = m

/-- Every tensor in an optional collector satisfies `OnlyMask m`. -/
def OnlyMaskColl (m : Option Tensor) : Option (List Tensor) → Prop
  | none => True
  | some l => ∀ t ∈ l, OnlyMask m t

/-!
Concrete instances used as witnesses for the theorems below.
-/

/-- A small concrete configuration: one encoder layer, both collectors
enabled, embedding scaling on, no activation function specified. -/
def cfgW : PegasusConfig where
  d_model := 8
  encoder_attention_heads := 2
  encoder_ffn_dim := 16
  encoder_layers := 1
  max_position_embeddings := 512
  dropout := 0
  attention_dropout := 0
  activation_dropout := 0
  activation_function := none
  output_attentions := some true
  output_hidden_states := some true
  scale_embedding := some true

/-- A concrete encoder stack built from `cfgW` at the root path. -/
def encW : PegasusEncoder := PegasusEncoder.new [] cfgW

/-- The output of a concrete evaluation-mode forward call of `encW`. -/
def outW : PegasusEncoderOutput :=
  (encW.forward_t (Tensor.input 0) none 0 false 0).getD
    { hidden_state := Tensor.input 0, all_hidden_states := none, all_attentions := none }

/-- The hidden-state collector of that call. -/
def hsW : List Tensor := outW.all_hidden_states.getD []

/-- The output of a concrete forward call of `encW` with an attention mask
supplied. -/
def outWM : PegasusEncoderOutput :=
  (encW.forward_t (Tensor.input 0) (some (Tensor.input 1)) 0 false 0).getD
    { hidden_state := Tensor.input 0, all_hidden_states := none, all_attentions := none }

/-- A single layer built not to return attention weights. -/
def layerNoW : EncoderLayer :=
  EncoderLayer.new [] { cfgW with output_attentions := some false }

/-- A stack whose attention-weight collection flag is set although its one
layer returns no attention weights. -/
def encBadW : PegasusEncoder :=
  { PegasusEncoder.new [] cfgW with layers := [layerNoW] }

/-!
Helper lemmas.
-/

/-- The attention-weight component of a layer forward is `some` exactly when
the layer's attention module was built with the output-attentions flag. -/
theorem EncoderLayer.forward_t_snd (l : EncoderLayer) (h : Tensor) (m : Option Tensor)
    (train : Bool) (rng : Nat) :
    (l.forward_t h m train rng).2 =
      if l.self_attention.output_attentions then
        some (Tensor.attnWeights l.self_attention.path
          (Tensor.layerNormApp l.self_attention_layer_norm h) m)
      else none := rfl

theorem hiddenChain_eq_preHidden (mask : Option Tensor) (train : Bool) (rng : Nat) :
    ∀ (Ls : List EncoderLayer) (h : Tensor),
    hiddenChain mask train rng Ls h =
      preHidden mask train rng Ls h ++ [applyLayers mask train rng Ls h]
  | [], h => rfl
  | layer :: rest, h => by
    simp [hiddenChain, preHidden, applyLayers,
      hiddenChain_eq_preHidden mask train rng rest]

theorem hiddenChain_length (mask : Option Tensor) (train : Bool) (rng : Nat) :
    ∀ (Ls : List EncoderLayer) (h : Tensor),
    (hiddenChain mask train rng Ls h).length = Ls.length + 1
  | [], _ => rfl
  | layer :: rest, h => by
    simp [hiddenChain, hiddenChain_length mask train rng rest]

theorem hiddenChain_head (mask : Option Tensor) (train : Bool) (rng : Nat)
    (Ls : List EncoderLayer) (h : Tensor) :
    (hiddenChain mask train rng Ls h).head? = some h := by
  cases Ls <;> rfl

theorem hiddenChain_getLast (mask : Option Tensor) (train : Bool) (rng : Nat)
    (Ls : List EncoderLayer) (h : Tensor) :
    (hiddenChain mask train rng Ls h).getLast? = some (applyLayers mask train rng Ls h) := by
  rw [hiddenChain_eq_preHidden]
  exact List.getLast?_concat _

theorem attnChain_length (mask : Option Tensor) (train : Bool) (rng : Nat) :
    ∀ (Ls : List EncoderLayer) (h : Tensor),
    (attnChain mask train rng Ls h).length = Ls.length
  | [], _ => rfl
  | layer :: rest, h => by
    simp [attnChain, attnChain_length mask train rng rest]

/-- With the attention collector absent, the layer loop always succeeds,
appends the pre-layer hidden states to the hidden-state collector, and ends
in the sequential stack output. -/
theorem runLayers_attsNone (m : Option Tensor) (train : Bool) (rng : Nat) :
    ∀ (Ls : List EncoderLayer) (h : Tensor) (hs0 : Option (List Tensor)),
    PegasusEncoder.runLayers m train rng Ls (h, hs0, none) =
      some (applyLayers m train rng Ls h,
        hs0.map (fun l => l ++ preHidden m train rng Ls h), none)
  | [], h, hs0 => by
    cases hs0 <;> simp [PegasusEncoder.runLayers, applyLayers, preHidden]
  | layer :: rest, h, hs0 => by
    cases hs0 with
    | none =>
      simp [PegasusEncoder.runLayers, applyLayers, preHidden,
        runLayers_attsNone m train rng rest]
    | some acc =>
      simp [PegasusEncoder.runLayers, applyLayers, preHidden,
        runLayers_attsNone m train rng rest]

/-- With the attention collector present, a successful layer loop appends
the pre-layer hidden states to the hidden-state collector, appends exactly
the per-layer attention weights (in layer order) to the attention
collector, and ends in the sequential stack output. -/
theorem runLayers_attsSome (m : Option Tensor) (train : Bool) (rng : Nat) :
    ∀ (Ls : List EncoderLayer) (h : Tensor) (hs0 : Option (List Tensor))
      (acc : List Tensor) (st : Tensor × Option (List Tensor) × Option (List Tensor)),
    PegasusEncoder.runLayers m train rng Ls (h, hs0, some acc) = some st →
    ∃ ws : List Tensor,
      st = (applyLayers m train rng Ls h,
        hs0.map (fun l => l ++ preHidden m train rng Ls h), some (acc ++ ws)) ∧
      List.map some ws = attnChain m train rng Ls h
  | [], h, hs0, acc, st => by
    intro hrun
    refine ⟨[], ?_, rfl⟩
    simp [PegasusEncoder.runLayers] at hrun
    cases hs0 <;> simp_all [applyLayers, preHidden]
  | layer :: rest, h, hs0, acc, st => by
    intro hrun
    rw [PegasusEncoder.runLayers] at hrun
    rcases hw : (layer.forward_t h m train rng).2 with _ | w
    · rw [hw] at hrun
      simp at hrun
    · rw [hw] at hrun
      simp only at hrun
      obtain ⟨ws, hst, hchain⟩ :=
        runLayers_attsSome m train rng rest (layer.forward_t h m train rng).1
          (hs0.map (fun l => l ++ [h])) (acc ++ [w]) st hrun
      refine ⟨w :: ws, ?_, ?_⟩
      · rw [hst]
        cases hs0 <;>
          simp [applyLayers, preHidden, List.append_assoc]
      · simp [attnChain, hw, hchain]

/-- With the attention collector present and every layer built to output
attention weights, the layer loop succeeds. -/
theorem runLayers_attsSome_isSome (m : Option Tensor) (train : Bool) (rng : Nat) :
    ∀ (Ls : List EncoderLayer) (h : Tensor) (hs0 : Option (List Tensor))
      (acc : List Tensor),
    (∀ l ∈ Ls, l.self_attention.output_attentions = true) →
    (PegasusEncoder.runLayers m train rng Ls (h, hs0, some acc)).isSome = true
  | [], h, hs0, acc => by
    intro _
    simp [PegasusEncoder.runLayers]
  | layer :: rest, h, hs0, acc => by
    intro hall
    rw [PegasusEncoder.runLayers]
    have hflag : layer.self_attention.output_attentions = true :=
      hall layer (List.mem_cons_self _ _)
    rw [EncoderLayer.forward_t_snd, hflag]
    simp only [if_true]
    exact runLayers_attsSome_isSome m train rng rest _ _ _
      (fun l hl => hall l (List.mem_cons_of_mem _ hl))

/-- With the attention collector present, the layer loop fails (the `unwrap`
panics) as soon as some layer returns no attention-weight tensor. -/
theorem runLayers_attsSome_fail (m : Option Tensor) (train : Bool) (rng : Nat) :
    ∀ (Ls : List EncoderLayer) (h : Tensor) (hs0 : Option (List Tensor))
      (acc : List Tensor),
    (∃ l ∈ Ls, ∀ h', (l.forward_t h' m train rng).2 = none) →
    PegasusEncoder.runLayers m train rng Ls (h, hs0, some acc) = none
  | [], h, hs0, acc => by
    rintro ⟨l, hl, _⟩
    exact absurd hl (List.not_mem_nil l)
  | layer :: rest, h, hs0, acc => by
    rintro ⟨l, hl, hnone⟩
    rw [PegasusEncoder.runLayers]
    rcases hw : (layer.forward_t h m train rng).2 with _ | w
    · simp
    · simp only
      rcases List.mem_cons.mp hl with heq | htail
      · subst heq
        rw [hnone h] at hw
        exact absurd hw (by simp)
      · exact runLayers_attsSome_fail m train rng rest _ _ _ ⟨l, htail, hnone⟩

/-- Characterization of a successful run of the stack's tail (the layer
loop followed by the final capture and final normalization), for an
arbitrary expanded mask and initial hidden state. -/
theorem runStack_char (m' : Option Tensor) (train : Bool) (rng : Nat)
    (Ls : List EncoderLayer) (x0 : Tensor) (ln : LayerNorm) (ohflag oaflag : Bool)
    (oh : Tensor) (ohs oat : Option (List Tensor))
    (h : (match PegasusEncoder.runLayers m' train rng Ls
        (x0, if ohflag then some [] else none, if oaflag then some [] else none) with
      | none => none
      | some (hidden_state, all_hidden_states, all_attentions) =>
        some ({ hidden_state := Tensor.layerNormApp ln hidden_state,
                all_hidden_states := all_hidden_states.map (fun hs => hs ++ [hidden_state]),
                all_attentions := all_attentions } : PegasusEncoderOutput)) =
      some { hidden_state := oh, all_hidden_states := ohs, all_attentions := oat }) :
    oh = Tensor.layerNormApp ln (applyLayers m' train rng Ls x0) ∧
    ohs = (if ohflag then some (hiddenChain m' train rng Ls x0) else none) ∧
    (oaflag = false → oat = none) ∧
    (oaflag = true → ∃ ws : List Tensor, oat = some ws ∧
      List.map some ws = attnChain m' train rng Ls x0) := by
  cases oaflag with
  | false =>
    simp only [Bool.false_eq_true, if_false] at h
    rw [runLayers_attsNone] at h
    cases ohflag with
    | false =>
      simp at h
      obtain ⟨h1, h2, h3⟩ := h
      subst h1; subst h2; subst h3
      exact ⟨rfl, by simp, fun _ => rfl, fun hc => by simp at hc⟩
    | true =>
      simp at h
      obtain ⟨h1, h2, h3⟩ := h
      subst h1; subst h2; subst h3
      exact ⟨rfl, by simp [hiddenChain_eq_preHidden], fun _ => rfl, fun hc => by simp at hc⟩
  | true =>
    simp only [if_true] at h
    rcases hrun : PegasusEncoder.runLayers m' train rng Ls
        (x0, if ohflag then some [] else none, some []) with _ | st
    · rw [hrun] at h
      simp at h
    · rw [hrun] at h
      obtain ⟨ws, hst, hchain⟩ := runLayers_attsSome _ _ _ _ _ _ _ _ hrun
      subst hst
      cases ohflag with
      | false =>
        simp at h
        obtain ⟨h1, h2, h3⟩ := h
        subst h1; subst h2; subst h3
        exact ⟨rfl, by simp, fun hc => by simp at hc, fun _ => ⟨ws, rfl, hchain⟩⟩
      | true =>
        simp at h
        obtain ⟨h1, h2, h3⟩ := h
        subst h1; subst h2; subst h3
        exact ⟨rfl, by simp [hiddenChain_eq_preHidden], fun hc => by simp at hc,
          fun _ => ⟨ws, rfl, hchain⟩⟩

/-- Characterization of a successful stack forward call: the primary output
is the final normalization of the sequentially stacked hidden state, the
hidden-state collector (when enabled) is exactly the captured chain, and the
attention collector (when enabled) is exactly the per-layer weight chain. -/
theorem PegasusEncoder.forward_t_char (enc : PegasusEncoder) (input_ids : Tensor)
    (attention_mask : Option Tensor) (embeddings : Nat) (train : Bool) (rng : Nat)
    (out : PegasusEncoderOutput)
    (h : enc.forward_t input_ids attention_mask embeddings train rng = some out) :
    out.hidden_state = Tensor.layerNormApp enc.layer_norm
      (applyLayers (Option.map (fun m => _expand_mask m none) attention_mask) train rng
        enc.layers (preStackTensor enc input_ids embeddings train rng)) ∧
    out.all_hidden_states = (if enc.output_hidden_states then
      some (hiddenChain (Option.map (fun m => _expand_mask m none) attention_mask) train rng
        enc.layers (preStackTensor enc input_ids embeddings train rng)) else none) ∧
    (enc.output_attentions = false → out.all_attentions = none) ∧
    (enc.output_attentions = true → ∃ ws : List Tensor, out.all_attentions = some ws ∧
      List.map some ws = attnChain (Option.map (fun m => _expand_mask m none) attention_mask)
        train rng enc.layers (preStackTensor enc input_ids embeddings train rng)) := by
  obtain ⟨oh, ohs, oat⟩ := out
  cases attention_mask with
  | none =>
    exact runStack_char none train rng enc.layers
      (preStackTensor enc input_ids embeddings train rng) enc.layer_norm
      enc.output_hidden_states enc.output_attentions oh ohs oat h
  | some m0 =>
    exact runStack_char (some (_expand_mask m0 none)) train rng enc.layers
      (preStackTensor enc input_ids embeddings train rng) enc.layer_norm
      enc.output_hidden_states enc.output_attentions oh ohs oat h

/-- Every attention-bias argument recorded in a layer's output hidden state
is either the mask this layer call received or was already recorded in the
input hidden state. -/
theorem EncoderLayer.forward_t_fst_masks (l : EncoderLayer) (h0 : Tensor)
    (m : Option Tensor) (train : Bool) (rng : Nat) :
    ∀ b ∈ ((l.forward_t h0 m train rng).1).attnMasks, b = m ∨ b ∈ h0.attnMasks := by
  cases train <;>
  · intro b hb
    simp [EncoderLayer.forward_t, PegasusAttention.forward_t, Dropout.apply_t,
      Tensor.attnMasks] at hb
    tauto

/-- Every attention-bias argument recorded in a layer's returned
attention-weight tensor is either the mask this layer call received or was
already recorded in the input hidden state. -/
theorem EncoderLayer.forward_t_snd_masks (l : EncoderLayer) (h0 : Tensor)
    (m : Option Tensor) (train : Bool) (rng : Nat) (w : Tensor)
    (hw : (l.forward_t h0 m train rng).2 = some w) :
    ∀ b ∈ w.attnMasks, b = m ∨ b ∈ h0.attnMasks := by
  rw [EncoderLayer.forward_t_snd] at hw
  rcases hflag : l.self_attention.output_attentions with _ | _
  · rw [hflag] at hw
    simp at hw
  · rw [hflag] at hw
    simp only [if_true, Option.some.injEq] at hw
    subst hw
    intro b hb
    simp [Tensor.attnMasks] at hb
    tauto

theorem applyLayers_masks (m : Option Tensor) (train : Bool) (rng : Nat) :
    ∀ (Ls : List EncoderLayer) (h0 : Tensor), OnlyMask m h0 →
    OnlyMask m (applyLayers m train rng Ls h0)
  | [], h0 => fun hh => hh
  | layer :: rest, h0 => fun hh => by
    apply applyLayers_masks m train rng rest
    intro b hb
    rcases EncoderLayer.forward_t_fst_masks layer h0 m train rng b hb with hbm | hbh
    · exact hbm
    · exact hh b hbh

theorem hiddenChain_masks (m : Option Tensor) (train : Bool) (rng : Nat) :
    ∀ (Ls : List EncoderLayer) (h0 : Tensor), OnlyMask m h0 →
    ∀ t ∈ hiddenChain m train rng Ls h0, OnlyMask m t
  | [], h0 => by
    intro hh t ht
    simp [hiddenChain] at ht
    subst ht
    exact hh
  | layer :: rest, h0 => by
    intro hh t ht
    simp only [hiddenChain, List.mem_cons] at ht
    rcases ht with rfl | ht
    · exact hh
    · refine hiddenChain_masks m train rng rest _ ?_ t ht
      intro b hb
      rcases EncoderLayer.forward_t_fst_masks layer h0 m train rng b hb with hbm | hbh
      · exact hbm
      · exact hh b hbh

theorem attnChain_masks (m : Option Tensor) (train : Bool) (rng : Nat) :
    ∀ (Ls : List EncoderLayer) (h0 : Tensor), OnlyMask m h0 →
    ∀ ot ∈ attnChain m train rng Ls h0, ∀ w : Tensor, ot = some w → OnlyMask m w
  | [], h0 => by
    intro _ ot hot
    simp [attnChain] at hot
  | layer :: rest, h0 => by
    intro hh ot hot w hw
    simp only [attnChain, List.mem_cons] at hot
    rcases hot with rfl | hot
    · intro b hb
      rcases EncoderLayer.forward_t_snd_masks layer h0 m train rng w hw b hb with hbm | hbh
      · exact hbm
      · exact hh b hbh
    · refine attnChain_masks m train rng rest _ ?_ ot hot w hw
      intro b hb
      rcases EncoderLayer.forward_t_fst_masks layer h0 m train rng b hb with hbm | hbh
      · exact hbm
      · exact hh b hbh

/-- The attention-bias arguments recorded in the pre-stack tensor are those
of the raw input-id tensor (doubled: the ids enter through the embedding and
through the positional encoding). -/
theorem preStackTensor_masks (enc : PegasusEncoder) (input_ids : Tensor)
    (embeddings : Nat) (train : Bool) (rng : Nat) :
    (preStackTensor enc input_ids embeddings train rng).attnMasks =
      input_ids.attnMasks ++ input_ids.attnMasks := by
  cases train <;>
    simp [preStackTensor, Dropout.apply_t, SinusoidalPositionalEmbedding.forward,
      Tensor.attnMasks]

/-- In evaluation mode the layer loop does not depend on the random
source. -/
theorem runLayers_eval_rng (m : Option Tensor) (rng1 rng2 : Nat) :
    ∀ (Ls : List EncoderLayer)
      (st : Tensor × Option (List Tensor) × Option (List Tensor)),
    PegasusEncoder.runLayers m false rng1 Ls st =
      PegasusEncoder.runLayers m false rng2 Ls st
  | [], st => rfl
  | layer :: rest, (h0, hs0, ats0) => by
    simp only [PegasusEncoder.runLayers]
    rw [show layer.forward_t h0 m false rng1 = layer.forward_t h0 m false rng2 from rfl]
    cases ats0 with
    | none => exact runLayers_eval_rng m rng1 rng2 rest _
    | some acc =>
      cases (layer.forward_t h0 m false rng2).2 with
      | none => rfl
      | some w => exact runLayers_eval_rng m rng1 rng2 rest _

/-- If the per-layer attention modules of a stack all output attention
weights whenever the stack-level collection flag is set, the forward pass
always succeeds (the loop's `unwrap` cannot panic). -/
theorem PegasusEncoder.forward_t_isSome (enc : PegasusEncoder)
    (hall : enc.output_attentions = true →
      ∀ l ∈ enc.layers, l.self_attention.output_attentions = true)
    (input_ids : Tensor) (attention_mask : Option Tensor) (embeddings : Nat)
    (train : Bool) (rng : Nat) :
    (enc.forward_t input_ids attention_mask embeddings train rng).isSome = true := by
  cases attention_mask with
  | none =>
    simp only [PegasusEncoder.forward_t]
    rcases hfa : enc.output_attentions with _ | _
    · simp only [Bool.false_eq_true, if_false]
      rw [runLayers_attsNone]
      rfl
    · simp only [reduceIte]
      rcases hrun : PegasusEncoder.runLayers none train rng enc.layers
          (Dropout.apply_t enc.dropout
            (Tensor.add
              (Tensor.smul enc.scale_embedding (Tensor.embedLookup embeddings input_ids))
              (enc.embed_positions.forward input_ids 0)) train rng,
           if enc.output_hidden_states then some [] else none, some []) with _ | st
      · have hsome := runLayers_attsSome_isSome none train rng enc.layers
          (Dropout.apply_t enc.dropout
            (Tensor.add
              (Tensor.smul enc.scale_embedding (Tensor.embedLookup embeddings input_ids))
              (enc.embed_positions.forward input_ids 0)) train rng)
          (if enc.output_hidden_states then some [] else none) [] (hall hfa)
        rw [hrun] at hsome
        simp at hsome
      · rfl
  | some m0 =>
    simp only [PegasusEncoder.forward_t]
    rcases hfa : enc.output_attentions with _ | _
    · simp only [Bool.false_eq_true, if_false]
      rw [runLayers_attsNone]
      rfl
    · simp only [reduceIte]
      rcases hrun : PegasusEncoder.runLayers (some (_expand_mask m0 none)) train rng enc.layers
          (Dropout.apply_t enc.dropout
            (Tensor.add
              (Tensor.smul enc.scale_embedding (Tensor.embedLookup embeddings input_ids))
              (enc.embed_positions.forward input_ids 0)) train rng,
           if enc.output_hidden_states then some [] else none, some []) with _ | st
      · have hsome := runLayers_attsSome_isSome (some (_expand_mask m0 none)) train rng enc.layers
          (Dropout.apply_t enc.dropout
            (Tensor.add
              (Tensor.smul enc.scale_embedding (Tensor.embedLookup embeddings input_ids))
              (enc.embed_positions.forward input_ids 0)) train rng)
          (if enc.output_hidden_states then some [] else none) [] (hall hfa)
        rw [hrun] at hsome
        simp at hsome
      · rfl

/-!
Claims.
-/

/-- C1: for every forward call of the encoder stack with hidden-state
collection enabled, the returned hidden-state collector has exactly
`layers + 1` entries: it is exactly the chain that captures the current
hidden state before each layer transforms it plus one final capture, its
first entry is the post-embedding, post-dropout, pre-stack tensor, its last
entry is the final layer's output before the final normalization, and the
primary output is the final normalization of that last entry. -/
theorem hidden_state_collection_spec (enc : PegasusEncoder) (input_ids : Tensor)
    (attention_mask : Option Tensor) (embeddings : Nat) (train : Bool) (rng : Nat)
    (out : PegasusEncoderOutput)
    (hflag : enc.output_hidden_states = true)
    (hout : enc.forward_t input_ids attention_mask embeddings train rng = some out) :
    ∃ hs : List Tensor, out.all_hidden_states = some hs ∧
      hs.length = enc.layers.length + 1 ∧
      hs = hiddenChain (Option.map (fun m => _expand_mask m none) attention_mask) train rng
        enc.layers (preStackTensor enc input_ids embeddings train rng) ∧
      hs.head? = some (preStackTensor enc input_ids embeddings train rng) ∧
      hs.getLast? = some (applyLayers
        (Option.map (fun m => _expand_mask m none) attention_mask) train rng
        enc.layers (preStackTensor enc input_ids embeddings train rng)) ∧
      out.hidden_state = Tensor.layerNormApp enc.layer_norm
        (applyLayers (Option.map (fun m => _expand_mask m none) attention_mask) train rng
          enc.layers (preStackTensor enc input_ids embeddings train rng)) := by
  obtain ⟨h1, h2, _, _⟩ := PegasusEncoder.forward_t_char _ _ _ _ _ _ _ hout
  rw [hflag] at h2
  simp only [if_true] at h2
  exact ⟨_, h2, hiddenChain_length _ _ _ _ _, rfl, hiddenChain_head _ _ _ _ _,
    hiddenChain_getLast _ _ _ _ _, h1⟩

/-- Witness for C1: the concrete one-layer stack `encW`, run in evaluation
mode without a mask, satisfies the hypotheses and the conclusion of
`hidden_state_collection_spec`. -/
theorem hidden_state_collection_spec_witness :
    encW.output_hidden_states = true ∧
    encW.forward_t (Tensor.input 0) none 0 false 0 = some outW ∧
    (∃ hs : List Tensor, outW.all_hidden_states = some hs ∧
      hs.length = encW.layers.length + 1 ∧
      hs = hiddenChain none false 0 encW.layers (preStackTensor encW (Tensor.input 0) 0 false 0) ∧
      hs.head? = some (preStackTensor encW (Tensor.input 0) 0 false 0) ∧
      hs.getLast? = some (applyLayers none false 0 encW.layers
        (preStackTensor encW (Tensor.input 0) 0 false 0)) ∧
      outW.hidden_state = Tensor.layerNormApp encW.layer_norm
        (applyLayers none false 0 encW.layers
          (preStackTensor encW (Tensor.input 0) 0 false 0))) :=
  ⟨rfl, rfl, hidden_state_collection_spec encW (Tensor.input 0) none 0 false 0 outW rfl rfl⟩

/-- C2: the attention sub-block of `EncoderLayer::forward_t` normalizes the
input, applies self-attention to the normalized tensor (passing the
optional attention mask through), applies dropout in training mode, and
adds the original, pre-normalization input as the residual; the rest of the
layer operates on that sum and the attention weights pass through
unchanged. -/
theorem encoder_layer_attention_residual (l : EncoderLayer) (x : Tensor)
    (mask : Option Tensor) (train : Bool) (rng : Nat) :
    l.forward_t x mask train rng =
      (specFfnSubBlock l (specAttnSubBlock l x mask train rng).1 train rng,
       (specAttnSubBlock l x mask train rng).2) := rfl

/-- C3: the feed-forward sub-block of `EncoderLayer::forward_t` takes the
post-attention tensor as residual base, normalizes it, applies the first
linear projection, the configured activation, dropout, the second linear
projection, dropout again, and returns this result plus the residual base
as the layer's output. -/
theorem encoder_layer_feed_forward (l : EncoderLayer) (x : Tensor)
    (mask : Option Tensor) (train : Bool) (rng : Nat) :
    (l.forward_t x mask train rng).1 =
      specFfnSubBlock l (specAttnSubBlock l x mask train rng).1 train rng := rfl

/-- C4: if attention-weight collection is enabled and some layer's forward
returns no attention-weight tensor, the stack's forward is fatal (the
modelled result is `none`, the image of the panicking `unwrap`), not a
silently skipped entry. -/
theorem missing_attention_weights_fatal (enc : PegasusEncoder) (input_ids : Tensor)
    (attention_mask : Option Tensor) (embeddings : Nat) (train : Bool) (rng : Nat)
    (hflag : enc.output_attentions = true)
    (hbad : ∃ l ∈ enc.layers, ∀ h : Tensor,
      (l.forward_t h (Option.map (fun m => _expand_mask m none) attention_mask)
        train rng).2 = none) :
    enc.forward_t input_ids attention_mask embeddings train rng = none := by
  cases attention_mask with
  | none =>
    simp only [PegasusEncoder.forward_t, hflag, if_true]
    rw [runLayers_attsSome_fail none train rng enc.layers _ _ _ hbad]
  | some m0 =>
    simp only [PegasusEncoder.forward_t, hflag, if_true]
    rw [runLayers_attsSome_fail (some (_expand_mask m0 none)) train rng enc.layers _ _ _ hbad]

/-- Witness for C4: the concrete stack `encBadW` collects attention weights
but its single layer returns none, and its forward call is fatal. -/
theorem missing_attention_weights_fatal_witness :
    encBadW.output_attentions = true ∧
    encBadW.forward_t (Tensor.input 0) none 0 false 0 = none :=
  ⟨rfl, missing_attention_weights_fatal encBadW (Tensor.input 0) none 0 false 0 rfl
    ⟨layerNoW, List.mem_singleton_self _, fun _ => rfl⟩⟩

/-- C5: for every successful forward call with attention-weight collection
enabled, the returned attention-weight collector has exactly `layers`
entries, one per layer in layer order (the per-layer weight chain); when
collection is disabled the collector is absent, not an empty list. -/
theorem attention_collection_spec (enc : PegasusEncoder) (input_ids : Tensor)
    (attention_mask : Option Tensor) (embeddings : Nat) (train : Bool) (rng : Nat)
    (out : PegasusEncoderOutput)
    (hout : enc.forward_t input_ids attention_mask embeddings train rng = some out) :
    (enc.output_attentions = false → out.all_attentions = none) ∧
    (enc.output_attentions = true → ∃ ws : List Tensor,
      out.all_attentions = some ws ∧
      ws.length = enc.layers.length ∧
      List.map some ws = attnChain (Option.map (fun m => _expand_mask m none) attention_mask)
        train rng enc.layers (preStackTensor enc input_ids embeddings train rng)) := by
  obtain ⟨_, _, h3, h4⟩ := PegasusEncoder.forward_t_char _ _ _ _ _ _ _ hout
  refine ⟨h3, fun hf => ?_⟩
  obtain ⟨ws, hws, hchain⟩ := h4 hf
  refine ⟨ws, hws, ?_, hchain⟩
  have hlen := congrArg List.length hchain
  simpa [attnChain_length] using hlen

/-- Witness for C5: the concrete one-layer stack `encW` has attention-weight
collection enabled and its forward call returns a one-entry collector. -/
theorem attention_collection_spec_witness :
    encW.forward_t (Tensor.input 0) none 0 false 0 = some outW ∧
    ((encW.output_attentions = false → outW.all_attentions = none) ∧
     (encW.output_attentions = true → ∃ ws : List Tensor,
       outW.all_attentions = some ws ∧
       ws.length = encW.layers.length ∧
       List.map some ws = attnChain none false 0 encW.layers
         (preStackTensor encW (Tensor.input 0) 0 false 0))) :=
  ⟨rfl, attention_collection_spec encW (Tensor.input 0) none 0 false 0 outW rfl⟩

/-- C6: the embedding lookup result is multiplied by `sqrt(d_model)` when
the embedding-scaling flag is configured true and by 1.0 otherwise (flag
absent or false), before the positional encoding is added: the constructed
scale factor is exactly the flag-selected one, and the pre-stack tensor
(the first collected hidden state) is the dropout image of (scaled
embeddings + positional encoding). -/
theorem embedding_scaling_spec (config : PegasusConfig) (p : NnPath) (input_ids : Tensor)
    (attention_mask : Option Tensor) (embeddings : Nat) (train : Bool) (rng : Nat)
    (out : PegasusEncoderOutput) (hs : List Tensor)
    (hcol : config.output_hidden_states = some true)
    (hout : (PegasusEncoder.new p config).forward_t input_ids attention_mask embeddings
      train rng = some out)
    (hhs : out.all_hidden_states = some hs) :
    (PegasusEncoder.new p config).scale_embedding =
      (if config.scale_embedding = some true then ScaleFactor.sqrtD config.d_model
       else ScaleFactor.one) ∧
    hs.head? = some (Dropout.apply_t (Dropout.new config.dropout)
      (Tensor.add
        (Tensor.smul
          (if config.scale_embedding = some true then ScaleFactor.sqrtD config.d_model
           else ScaleFactor.one)
          (Tensor.embedLookup embeddings input_ids))
        (Tensor.posEmbed (NnPath.sub p "embed_positions") input_ids 0))
      train rng) := by
  have hscale : (PegasusEncoder.new p config).scale_embedding =
      (if config.scale_embedding = some true then ScaleFactor.sqrtD config.d_model
       else ScaleFactor.one) := by
    rcases hsc : config.scale_embedding with _ | b
    · simp [PegasusEncoder.new, hsc]
    · cases b <;> simp [PegasusEncoder.new, hsc]
  refine ⟨hscale, ?_⟩
  obtain ⟨_, h2, _, _⟩ := PegasusEncoder.forward_t_char _ _ _ _ _ _ _ hout
  have hflag : (PegasusEncoder.new p config).output_hidden_states = true := by
    simp [PegasusEncoder.new, hcol]
  rw [hflag] at h2
  simp only [if_true] at h2
  rw [hhs] at h2
  rw [Option.some_inj.mp h2, hiddenChain_head]
  simp only [preStackTensor, SinusoidalPositionalEmbedding.forward]
  rw [hscale]
  rfl

/-- Witness for C6: the concrete configuration `cfgW` (embedding scaling
on) run through `embedding_scaling_spec`. -/
theorem embedding_scaling_spec_witness :
    cfgW.output_hidden_states = some true ∧
    (PegasusEncoder.new [] cfgW).forward_t (Tensor.input 0) none 0 false 0 = some outW ∧
    outW.all_hidden_states = some hsW ∧
    ((PegasusEncoder.new [] cfgW).scale_embedding =
      (if cfgW.scale_embedding = some true then ScaleFactor.sqrtD cfgW.d_model
       else ScaleFactor.one) ∧
     hsW.head? = some (Dropout.apply_t (Dropout.new cfgW.dropout)
       (Tensor.add
         (Tensor.smul
           (if cfgW.scale_embedding = some true then ScaleFactor.sqrtD cfgW.d_model
            else ScaleFactor.one)
           (Tensor.embedLookup 0 (Tensor.input 0)))
         (Tensor.posEmbed (NnPath.sub [] "embed_positions") (Tensor.input 0) 0))
       false 0)) :=
  ⟨rfl, rfl, rfl,
    embedding_scaling_spec cfgW [] (Tensor.input 0) none 0 false 0 outW hsW rfl rfl rfl⟩

/-- C7: if an attention mask is supplied to the stack's forward, it is
expanded once to an additive bias tensor and that expanded bias is the mask
every recorded self-attention invocation received (in the primary output
and in both collectors); if no mask is supplied, every recorded
self-attention invocation received no bias. -/
theorem mask_propagation_spec (enc : PegasusEncoder) (input_ids : Tensor)
    (attention_mask : Option Tensor) (embeddings : Nat) (train : Bool) (rng : Nat)
    (out : PegasusEncoderOutput)
    (hids : Tensor.attnMasks input_ids = [])
    (hout : enc.forward_t input_ids attention_mask embeddings train rng = some out) :
    OnlyMask (Option.map (fun m => _expand_mask m none) attention_mask) out.hidden_state ∧
    OnlyMaskColl (Option.map (fun m => _expand_mask m none) attention_mask)
      out.all_hidden_states ∧
    OnlyMaskColl (Option.map (fun m => _expand_mask m none) attention_mask)
      out.all_attentions := by
  obtain ⟨h1, h2, h3, h4⟩ := PegasusEncoder.forward_t_char _ _ _ _ _ _ _ hout
  set m' := Option.map (fun m => _expand_mask m none) attention_mask with hm'
  have hx0 : OnlyMask m' (preStackTensor enc input_ids embeddings train rng) := by
    intro b hb
    rw [preStackTensor_masks, hids] at hb
    simp at hb
  refine ⟨?_, ?_, ?_⟩
  · rw [h1]
    intro b hb
    simp only [Tensor.attnMasks] at hb
    exact applyLayers_masks m' train rng enc.layers _ hx0 b hb
  · rw [h2]
    rcases hfh : enc.output_hidden_states with _ | _
    · simp only [Bool.false_eq_true, if_false]
      trivial
    · simp only [if_true]
      exact fun t ht => hiddenChain_masks m' train rng enc.layers _ hx0 t ht
  · rcases hfa : enc.output_attentions with _ | _
    · rw [h3 hfa]
      trivial
    · obtain ⟨ws, hws, hchain⟩ := h4 hfa
      rw [hws]
      intro t ht
      have hmem : some t ∈ attnChain m' train rng enc.layers
          (preStackTensor enc input_ids embeddings train rng) := by
        rw [← hchain]
        exact List.mem_map_of_mem some ht
      exact attnChain_masks m' train rng enc.layers _ hx0 (some t) hmem t rfl

/-- Witness for C7: the masked forward call of `encW` whose every recorded
attention invocation received the expanded bias of the supplied mask. -/
theorem mask_propagation_spec_witness :
    Tensor.attnMasks (Tensor.input 0) = [] ∧
    encW.forward_t (Tensor.input 0) (some (Tensor.input 1)) 0 false 0 = some outWM ∧
    (OnlyMask (some (_expand_mask (Tensor.input 1) none)) outWM.hidden_state ∧
     OnlyMaskColl (some (_expand_mask (Tensor.input 1) none)) outWM.all_hidden_states ∧
     OnlyMaskColl (some (_expand_mask (Tensor.input 1) none)) outWM.all_attentions) :=
  ⟨rfl, rfl,
    mask_propagation_spec encW (Tensor.input 0) (some (Tensor.input 1)) 0 false 0 outWM
      rfl rfl⟩

/-- C8: with the training-mode flag disabled, two forward calls of the
encoder stack with identical inputs and identical parameters produce
identical outputs whatever the state of the external random source: the
forward function is deterministic when `train` is false. -/
theorem eval_forward_deterministic (enc : PegasusEncoder) (input_ids : Tensor)
    (attention_mask : Option Tensor) (embeddings : Nat) (rng1 rng2 : Nat) :
    enc.forward_t input_ids attention_mask embeddings false rng1 =
      enc.forward_t input_ids attention_mask embeddings false rng2 := by
  have key : ∀ rng : Nat, enc.forward_t input_ids attention_mask embeddings false rng =
      (match PegasusEncoder.runLayers
          (Option.map (fun m => _expand_mask m none) attention_mask) false rng enc.layers
          (Tensor.add
            (Tensor.smul enc.scale_embedding (Tensor.embedLookup embeddings input_ids))
            (enc.embed_positions.forward input_ids 0),
           if enc.output_hidden_states then some [] else none,
           if enc.output_attentions then some [] else none) with
        | none => none
        | some (hidden_state, all_hidden_states, all_attentions) =>
          some { hidden_state := Tensor.layerNormApp enc.layer_norm hidden_state,
                 all_hidden_states :=
                   Option.map (fun hs => hs ++ [hidden_state]) all_hidden_states,
                 all_attentions := all_attentions }) := by
    intro rng
    cases attention_mask <;> rfl
  rw [key rng1, key rng2, runLayers_eval_rng]

/-- C9: when the configuration does not specify an activation function, the
`EncoderLayer` is constructed with GELU as its activation (the function
applied between the two feed-forward linear projections, per
`encoder_layer_feed_forward`). -/
theorem default_activation_gelu (p : NnPath) (config : PegasusConfig)
    (hact : config.activation_function = none) :
    (EncoderLayer.new p config).activation = Activation.gelu.get_function := by
  simp [EncoderLayer.new, hact]

/-- Witness for C9: the concrete configuration `cfgW` leaves the activation
unspecified and its layer is built with GELU. -/
theorem default_activation_gelu_witness :
    cfgW.activation_function = none ∧
    (EncoderLayer.new [] cfgW).activation = Activation.gelu.get_function :=
  ⟨rfl, default_activation_gelu [] cfgW rfl⟩

/-- C10: in every stack constructed by `PegasusEncoder::new`, each layer's
attention module carries the same output-attentions flag as the stack's
collector flag, and consequently the stack's forward never hits the
`unwrap` failure: it returns a value for all inputs. -/
theorem constructed_stack_forward_total (p : NnPath) (config : PegasusConfig) :
    (∀ l ∈ (PegasusEncoder.new p config).layers,
      l.self_attention.output_attentions = (PegasusEncoder.new p config).output_attentions) ∧
    (∀ (input_ids : Tensor) (attention_mask : Option Tensor) (embeddings : Nat)
      (train : Bool) (rng : Nat),
      ((PegasusEncoder.new p config).forward_t input_ids attention_mask embeddings
        train rng).isSome = true) := by
  have hmem : ∀ l ∈ (PegasusEncoder.new p config).layers,
      l.self_attention.output_attentions = config.output_attentions.getD false := by
    intro l hl
    simp only [PegasusEncoder.new, List.mem_map] at hl
    obtain ⟨i, _, rfl⟩ := hl
    rfl
  refine ⟨fun l hl => hmem l hl, ?_⟩
  intro input_ids attention_mask embeddings train rng
  exact PegasusEncoder.forward_t_isSome _
    (fun hfa l hl => by rw [hmem l hl]; exact hfa) _ _ _ _ _

end Pegasus
